import Mathlib

/-!
# Verification of the `tabbed` delimited-text reader

A shallow embedding of the core of the `tabbed` repository:

* `tabbed/utils/celltyping.py` and `tabbed/utils/parsing.py` — cell classification
  and conversion (`is_numeric`, `as_numeric`, `convert`, the date/time/datetime
  format catalogues and `datetime.strptime`);
* `tabbed/tabs.py` — the `Tab` predicate classes and the `Tabulator`;
* `tabbed/sniffing.py` — the `Sniffer`'s sample parameters, row splitting and
  header/metadata detection helpers;
* `tabbed/reading.py` / `reader.py` — the chunked `read` loop.

Python machine floats are modelled as exact rationals together with the special
values `inf` and `nan`; claims under study depend only on variant selection,
comparison outcomes, and raise/no-raise behaviour, never on IEEE rounding.
Python exceptions are modelled with `Except PyErr`.
-/

namespace Tabbed

/-- Python exception kinds raised by the embedded code paths. -/
inductive PyErr where
  | valueError
  | typeError
  | keyError
  | indexError
  | assertionError
  | stopIteration
  deriving DecidableEq, Repr

/-! ## Character and string utilities mirroring Python `str` behaviour -/

/-- Whitespace characters recognised by Python's `str.strip` / numeric parsers
(the ASCII ones; the sources never feed exotic Unicode spaces to them). -/
def isWs (c : Char) : Bool :=
  c = ' ' || c = '\t' || c = '\n' || c = '\x0b' || c = '\x0c' || c = '\r'

/-- Strip leading and trailing whitespace from a character list. -/
def stripWs (cs : List Char) : List Char :=
  ((cs.dropWhile isWs).reverse.dropWhile isWs).reverse

def isDigitC (c : Char) : Bool := '0' ≤ c && c ≤ '9'

def digitVal (c : Char) : Nat := c.toNat - '0'.toNat

/-- Value of a digit string read in base 10. -/
def digitsVal (cs : List Char) : Nat := cs.foldl (fun a c => a * 10 + digitVal c) 0

/-- Consume an optional sign; returns `(negative?, rest)`. -/
def takeSign : List Char → Bool × List Char
  | '-' :: rest => (true, rest)
  | '+' :: rest => (false, rest)
  | cs => (false, cs)

/-- Case-insensitive match of the (lowercase) word `w` at the head of `cs`;
returns the remainder on success. -/
def ciMatch : List Char → List Char → Option (List Char)
  | [], cs => some cs
  | _, [] => none
  | w :: ws, c :: cs => if c.toLower = w then ciMatch ws cs else none

/-- Drop the exact pattern `p` from the head of `cs`, if present. -/
def dropExact : List Char → List Char → Option (List Char)
  | [], cs => some cs
  | _, [] => none
  | p :: ps, c :: cs => if c = p then dropExact ps cs else none

/-- Worker for `pySplit`; the fuel (an upper bound on the remaining length)
keeps the recursion structural. -/
def splitSepFuel (sep : List Char) : Nat → List Char → List Char → List (List Char)
  | 0, cs, acc => [acc.reverse ++ cs]
  | fuel + 1, cs, acc =>
    match cs with
    | [] => [acc.reverse]
    | c :: rest =>
      match dropExact sep cs with
      | some rest' => acc.reverse :: splitSepFuel sep fuel rest' []
      | none => splitSepFuel sep fuel rest (c :: acc)

/-- Python's `s.split(sep)` for a non-empty separator: split on every
occurrence, keeping empty pieces. -/
def pySplit (s sep : String) : List String :=
  if sep.data.isEmpty then [s]
  else (splitSepFuel sep.data (s.data.length + 1) s.data []).map fun l => ⟨l⟩

/-! ## Python numeric literals

`int(s)`, `float(s)` and `complex(s)` as used by `is_numeric`, `as_numeric`
and `convert`.  Finite float values are exact rationals. -/

/-- `int(s)`: optional surrounding whitespace, optional sign, one or more
digits consuming the whole string. -/
def pyIntParse (s : String) : Option Int :=
  let cs := stripWs s.data
  let (neg, cs') := takeSign cs
  if cs' ≠ [] && cs'.all isDigitC then
    let v : Int := digitsVal cs'
    some (if neg then -v else v)
  else none

/-- A Python float value: an exact rational, an infinity, or nan. -/
inductive PyFloat where
  | finite (q : ℚ)
  | inf (neg : Bool)
  | nan
  deriving DecidableEq, Repr

/-- Negate a Python float. -/
def pfNeg : PyFloat → PyFloat
  | .finite q => .finite (-q)
  | .inf b => .inf (!b)
  | .nan => .nan

/-- Parse an optional exponent part `([eE][+-]?digits)` scaling `mant`;
returns the value and the remaining characters. -/
def parseExpPart (mant : ℚ) (cs : List Char) : Option (ℚ × List Char) :=
  match cs with
  | 'e' :: rest =>
    let (neg, rest2) := takeSign rest
    let ds := rest2.takeWhile isDigitC
    if ds.length = 0 then none
    else
      let e := digitsVal ds
      let v := if neg then mant / ((10 : ℚ) ^ e) else mant * ((10 : ℚ) ^ e)
      some (v, rest2.drop ds.length)
  | 'E' :: rest =>
    let (neg, rest2) := takeSign rest
    let ds := rest2.takeWhile isDigitC
    if ds.length = 0 then none
    else
      let e := digitsVal ds
      let v := if neg then mant / ((10 : ℚ) ^ e) else mant * ((10 : ℚ) ^ e)
      some (v, rest2.drop ds.length)
  | _ => some (mant, cs)

/-- Parse an unsigned decimal float number `digits[.digits] | .digits` with an
optional exponent, at the head of `cs`. -/
def parseFloatNum (cs : List Char) : Option (ℚ × List Char) :=
  let ip := cs.takeWhile isDigitC
  let rest1 := cs.drop ip.length
  match rest1 with
  | '.' :: rest2 =>
    let fp := rest2.takeWhile isDigitC
    let rest3 := rest2.drop fp.length
    if ip.length = 0 && fp.length = 0 then none
    else
      let mant : ℚ := (digitsVal ip : ℚ) + (digitsVal fp : ℚ) / ((10 : ℚ) ^ fp.length)
      parseExpPart mant rest3
  | _ =>
    if ip.length = 0 then none
    else parseExpPart ((digitsVal ip : ℚ)) rest1

/-- Parse an unsigned float: `inf`, `infinity`, `nan` (case-insensitive) or a
decimal number. -/
def parseUFloat (cs : List Char) : Option (PyFloat × List Char) :=
  match ciMatch "infinity".data cs with
  | some rest => some (.inf false, rest)
  | none =>
    match ciMatch "inf".data cs with
    | some rest => some (.inf false, rest)
    | none =>
      match ciMatch "nan".data cs with
      | some rest => some (.nan, rest)
      | none =>
        match parseFloatNum cs with
        | some (q, rest) => some (.finite q, rest)
        | none => none

/-- Parse a signed float at the head of `cs`. -/
def parseSFloat (cs : List Char) : Option (PyFloat × List Char) :=
  let (neg, cs') := takeSign cs
  match parseUFloat cs' with
  | some (f, rest) => some (if neg then pfNeg f else f, rest)
  | none => none

/-- `float(s)`: optional surrounding whitespace around one signed float. -/
def pyFloatParse (s : String) : Option PyFloat :=
  let cs := stripWs s.data
  match parseSFloat cs with
  | some (f, []) => some f
  | _ => none

/-- A Python complex value. -/
structure PyComplex where
  re : PyFloat
  im : PyFloat
  deriving DecidableEq, Repr

/-- The body of a Python complex literal (after whitespace/bracket handling):
`x`, `xj`, `x±yj`, `x±j`, `±j` or `j`. -/
def parseComplexBody (cs : List Char) : Option (PyComplex × List Char) :=
  match parseSFloat cs with
  | some (x, rest) =>
    match rest with
    | 'j' :: rest' => some (⟨.finite 0, x⟩, rest')
    | 'J' :: rest' => some (⟨.finite 0, x⟩, rest')
    | '+' :: tl =>
      (match parseSFloat ('+' :: tl) with
       | some (y, 'j' :: rest') => some (⟨x, y⟩, rest')
       | some (y, 'J' :: rest') => some (⟨x, y⟩, rest')
       | some _ => none
       | none =>
         match tl with
         | 'j' :: rest' => some (⟨x, .finite 1⟩, rest')
         | 'J' :: rest' => some (⟨x, .finite 1⟩, rest')
         | _ => none)
    | '-' :: tl =>
      (match parseSFloat ('-' :: tl) with
       | some (y, 'j' :: rest') => some (⟨x, y⟩, rest')
       | some (y, 'J' :: rest') => some (⟨x, y⟩, rest')
       | some _ => none
       | none =>
         match tl with
         | 'j' :: rest' => some (⟨x, .finite (-1)⟩, rest')
         | 'J' :: rest' => some (⟨x, .finite (-1)⟩, rest')
         | _ => none)
    | _ => some (⟨x, .finite 0⟩, rest)
  | none =>
    match cs with
    | '+' :: 'j' :: rest => some (⟨.finite 0, .finite 1⟩, rest)
    | '+' :: 'J' :: rest => some (⟨.finite 0, .finite 1⟩, rest)
    | '-' :: 'j' :: rest => some (⟨.finite 0, .finite (-1)⟩, rest)
    | '-' :: 'J' :: rest => some (⟨.finite 0, .finite (-1)⟩, rest)
    | 'j' :: rest => some (⟨.finite 0, .finite 1⟩, rest)
    | 'J' :: rest => some (⟨.finite 0, .finite 1⟩, rest)
    | _ => none

/-- `complex(s)`: optional whitespace, optionally one pair of parentheses
(with whitespace inside allowed next to them), around a complex body. -/
def pyComplexParse (s : String) : Option PyComplex :=
  let cs := s.data.dropWhile isWs
  match cs with
  | '(' :: cs1 =>
    (match parseComplexBody (cs1.dropWhile isWs) with
     | some (z, rest) =>
       (match rest.dropWhile isWs with
        | ')' :: rest2 => if rest2.dropWhile isWs = [] then some z else none
        | _ => none)
     | none => none)
  | _ =>
    match parseComplexBody cs with
    | some (z, rest) => if rest.dropWhile isWs = [] then some z else none
    | none => none

/-- `celltyping.is_numeric` / `parsing.is_numeric`: `True` iff `complex(s)`
succeeds. -/
def isNumericS (s : String) : Bool := (pyComplexParse s).isSome

/-! ## `datetime.strptime`

The format strings fed to `strptime` by the sources only use the directives
`%m %b %B %d %Y %y %H %I %M %S %f %p` and the literal separators
`' ' '/' '-' '.' ':'`; the interpreter below covers exactly those, following
CPython's `_strptime` regexes and post-processing. -/

/-- The result of a successful `datetime.strptime`. -/
structure DateTime where
  year : Nat
  month : Nat
  day : Nat
  hour : Nat
  minute : Nat
  second : Nat
  microsecond : Nat
  deriving DecidableEq, Repr

/-- Fields collected while matching a format; `none` means the corresponding
directive did not occur, so the `strptime` default applies. -/
structure TM where
  y : Option Nat := none
  mon : Option Nat := none
  d : Option Nat := none
  h24 : Option Nat := none
  h12 : Option Nat := none
  pm : Option Bool := none
  minu : Option Nat := none
  sec : Option Nat := none
  us : Option Nat := none
  deriving Repr

/-- Match one or two leading digits the way `_strptime`'s field regexes do:
two digits are consumed when their value passes `valid2`, else one digit
passing `valid1`. -/
def parse2or1 (valid2 valid1 : Nat → Bool) (cs : List Char) : Option (Nat × List Char) :=
  match cs with
  | c1 :: c2 :: rest =>
    if isDigitC c1 && isDigitC c2 && valid2 (digitVal c1 * 10 + digitVal c2) then
      some (digitVal c1 * 10 + digitVal c2, rest)
    else if isDigitC c1 && valid1 (digitVal c1) then
      some (digitVal c1, c2 :: rest)
    else none
  | [c1] =>
    if isDigitC c1 && valid1 (digitVal c1) then some (digitVal c1, []) else none
  | [] => none

/-- Consume exactly `n` leading digits. -/
def takeNDigits (n : Nat) (cs : List Char) : Option (Nat × List Char) :=
  let ds := (cs.take n).takeWhile isDigitC
  if ds.length = n then some (digitsVal ds, cs.drop n) else none

/-- First case-insensitive word of the table matching a prefix of `cs`. -/
def matchFirstCI : List (Nat × String) → List Char → Option (Nat × List Char)
  | [], _ => none
  | (n, w) :: rest, cs =>
    match ciMatch w.data cs with
    | some cs' => some (n, cs')
    | none => matchFirstCI rest cs

/-- Month abbreviations, numbered. -/
def monthAbbrTable : List (Nat × String) :=
  [(1, "jan"), (2, "feb"), (3, "mar"), (4, "apr"), (5, "may"), (6, "jun"),
   (7, "jul"), (8, "aug"), (9, "sep"), (10, "oct"), (11, "nov"), (12, "dec")]

/-- Full month names in the longest-first order `_strptime` builds its
alternation in (no name is a prefix of another, so order is inert). -/
def monthFullTable : List (Nat × String) :=
  [(9, "september"), (2, "february"), (11, "november"), (12, "december"),
   (1, "january"), (10, "october"), (8, "august"), (3, "march"), (4, "april"),
   (6, "june"), (7, "july"), (5, "may")]

/-- Interpret one `%`-directive against the input, updating the field record. -/
def parseDirective (c : Char) (inp : List Char) (tm : TM) : Option (TM × List Char) :=
  match c with
  | 'd' =>
    match parse2or1 (fun v => 1 ≤ v && v ≤ 31) (fun v => 1 ≤ v && v ≤ 9) inp with
    | some (v, r) => some ({ tm with d := some v }, r)
    | none => none
  | 'm' =>
    match parse2or1 (fun v => 1 ≤ v && v ≤ 12) (fun v => 1 ≤ v && v ≤ 9) inp with
    | some (v, r) => some ({ tm with mon := some v }, r)
    | none => none
  | 'Y' =>
    match takeNDigits 4 inp with
    | some (v, r) => some ({ tm with y := some v }, r)
    | none => none
  | 'y' =>
    match takeNDigits 2 inp with
    | some (v, r) =>
      some ({ tm with y := some (if v ≤ 68 then v + 2000 else v + 1900) }, r)
    | none => none
  | 'H' =>
    match parse2or1 (fun v => v ≤ 23) (fun _ => true) inp with
    | some (v, r) => some ({ tm with h24 := some v }, r)
    | none => none
  | 'I' =>
    match parse2or1 (fun v => 1 ≤ v && v ≤ 12) (fun v => 1 ≤ v && v ≤ 9) inp with
    | some (v, r) => some ({ tm with h12 := some v }, r)
    | none => none
  | 'M' =>
    match parse2or1 (fun v => v ≤ 59) (fun _ => true) inp with
    | some (v, r) => some ({ tm with minu := some v }, r)
    | none => none
  | 'S' =>
    match parse2or1 (fun v => v ≤ 61) (fun _ => true) inp with
    | some (v, r) => some ({ tm with sec := some v }, r)
    | none => none
  | 'f' =>
    match (inp.take 6).takeWhile isDigitC with
    | [] => none
    | d :: ds =>
      some ({ tm with us := some (digitsVal (d :: ds) * 10 ^ (6 - (d :: ds).length)) },
        inp.drop (d :: ds).length)
  | 'p' =>
    match matchFirstCI [(0, "am"), (1, "pm")] inp with
    | some (v, r) => some ({ tm with pm := some (v = 1) }, r)
    | none => none
  | 'b' =>
    match matchFirstCI monthAbbrTable inp with
    | some (v, r) => some ({ tm with mon := some v }, r)
    | none => none
  | 'B' =>
    match matchFirstCI monthFullTable inp with
    | some (v, r) => some ({ tm with mon := some v }, r)
    | none => none
  | _ => none

/-- Run a format string against the input: a `%` followed by a directive
character dispatches to `parseDirective`, a literal space matches one or more
whitespace characters (`\s+`), any other literal (including a trailing lone
`%`) matches itself. -/
def runFmt : List Char → List Char → TM → Option (TM × List Char)
  | [], inp, tm => some (tm, inp)
  | c :: rest, inp, tm =>
    if c = '%' then
      match rest with
      | c2 :: rest2 =>
        (match parseDirective c2 inp tm with
         | some (tm', inp') => runFmt rest2 inp' tm'
         | none => none)
      | [] =>
        (match inp with
         | c3 :: inp3 => if c3 = '%' then some (tm, inp3) else none
         | [] => none)
    else if c = ' ' then
      (if (inp.takeWhile isWs).length = 0 then none
       else runFmt rest (inp.drop (inp.takeWhile isWs).length) tm)
    else
      match inp with
      | c3 :: inp3 => if c3 = c then runFmt rest inp3 tm else none
      | [] => none

def isLeap (y : Nat) : Bool := y % 4 = 0 && (y % 100 ≠ 0 || y % 400 = 0)

def daysInMonth (y m : Nat) : Nat :=
  if m = 2 then (if isLeap y then 29 else 28)
  else if m = 4 || m = 6 || m = 9 || m = 11 then 30
  else 31

/-- The hour rule: `%H` wins outright; `%I` is adjusted by `%p` (`12` maps to
`0` without/with AM, to `12` with PM); no hour directive means midnight. -/
def tmHour (tm : TM) : Nat :=
  match tm.h24 with
  | some h => h
  | none =>
    match tm.h12 with
    | some h =>
      match tm.pm with
      | some true => if h = 12 then 12 else h + 12
      | _ => if h = 12 then 0 else h
    | none => 0

/-- Post-processing of the matched fields: `strptime` defaults
(year 1900, month 1, day 1, midnight), the `%y` pivot already applied, the
`%I`/`%p` hour rule, and `datetime` construction validation. -/
def tmFinalize (tm : TM) : Option DateTime :=
  let year := tm.y.getD 1900
  let mon := tm.mon.getD 1
  let day := tm.d.getD 1
  let hour := tmHour tm
  let minute := tm.minu.getD 0
  let sec := tm.sec.getD 0
  let us := tm.us.getD 0
  if 1 ≤ year && day ≤ daysInMonth year mon && hour ≤ 23 && minute ≤ 59 &&
      sec ≤ 59 && us ≤ 999999 then
    some ⟨year, mon, day, hour, minute, sec, us⟩
  else none

/-- `datetime.strptime(s, fmt)`: the whole input must be consumed. -/
def pyStrptime (s fmt : String) : Option DateTime :=
  match runFmt fmt.data s.data {} with
  | some (tm, []) => tmFinalize tm
  | _ => none

/-! ## Format catalogues (`date_formats`, `time_formats`, `datetime_formats`) -/

/-- `date_formats()` — identical in `celltyping.py` and `parsing.py`. -/
def dateFormats : List String :=
  ["m", "b", "B"].flatMap fun mth =>
    [" ", "/", "-", "."].flatMap fun sep =>
      ["Y", "y"].flatMap fun yr =>
        ["%" ++ mth ++ sep ++ "%d" ++ sep ++ "%" ++ yr,
         "%d" ++ sep ++ "%" ++ mth ++ sep ++ "%" ++ yr]

/-- `celltyping.time_formats()`. -/
def timeFormatsC : List String :=
  ["I", "H"].flatMap fun hrs =>
    ["", ":%f", ".%f"].flatMap fun micro =>
      ["", "%p"].map fun di => "%" ++ hrs ++ ":%M:%S" ++ micro ++ di

/-- `parsing.time_formats()`. -/
def timeFormatsP : List String :=
  ["I", "H"].flatMap fun hrs =>
    ["", ":%f", ".%f"].flatMap fun micro =>
      if hrs = "I" then
        ["%I:%M:%S" ++ micro ++ "%p", "%I:%M:%S" ++ micro ++ " %p"]
      else
        ["%H:%M:%S" ++ micro]

/-- `celltyping.datetime_formats()`. -/
def datetimeFormatsC : List String :=
  dateFormats.flatMap fun date => timeFormatsC.map fun time => date ++ " " ++ time

/-- `parsing.datetime_formats()`. -/
def datetimeFormatsP : List String :=
  dateFormats.flatMap fun date => timeFormatsP.map fun time => date ++ " " ++ time

/-- `find_format`: the first catalogue entry that parses `s` exactly. -/
def findFormat (s : String) : List String → Option String
  | [] => none
  | fmt :: rest => if (pyStrptime s fmt).isSome then some fmt else findFormat s rest

/-- `is_date` — identical in both modules. -/
def isDateS (s : String) : Bool := (findFormat s dateFormats).isSome

/-- `celltyping.is_time`. -/
def isTimeC (s : String) : Bool := (findFormat s timeFormatsC).isSome

/-- `parsing.is_time`: short-circuits when fewer than two `':'` occur. -/
def isTimeP (s : String) : Bool :=
  if s.data.countP (fun c => c = ':') < 2 then false
  else (findFormat s timeFormatsP).isSome

/-- `celltyping.is_datetime`. -/
def isDatetimeC (s : String) : Bool := (findFormat s datetimeFormatsC).isSome

/-- `parsing.is_datetime`. -/
def isDatetimeP (s : String) : Bool := (findFormat s datetimeFormatsP).isSome

/-! ## Cells and the two `convert` implementations -/

/-- A typed cell value (`CellType` in the sources). -/
inductive Cell where
  | int (n : Int)
  | float (f : PyFloat)
  | complex (z : PyComplex)
  | str (s : String)
  | dt (d : DateTime)
  deriving DecidableEq, Repr

/-- `re.findall(r'[ij]', s)` is non-empty (note: lowercase only). -/
def hasIJ (s : String) : Bool := s.data.any fun c => c = 'i' || c = 'j'

/-- `re.findall(r'\.', s)` is non-empty. -/
def hasDot (s : String) : Bool := s.data.any fun c => c = '.'

/-- `celltyping.convert` with no `func` argument.  An `Except` error is a
Python exception escaping the call. -/
def convertC (s : String) : Except PyErr Cell :=
  if isNumericS s then
    if hasIJ s then
      match pyComplexParse s with
      | some z => .ok (.complex z)
      | none => .error .valueError
    else if hasDot s then
      match pyFloatParse s with
      | some f => .ok (.float f)
      | none => .error .valueError
    else
      match pyIntParse s with
      | some n => .ok (.int n)
      | none => .error .valueError
  else if isDateS s then
    match findFormat s dateFormats with
    | some fmt =>
      match pyStrptime s fmt with
      | some d => .ok (.dt d)
      | none => .error .valueError
    | none => .error .assertionError
  else if isTimeC s then
    match findFormat s timeFormatsC with
    | some fmt =>
      match pyStrptime s fmt with
      | some d => .ok (.dt d)
      | none => .error .valueError
    | none => .error .assertionError
  else if isDatetimeC s then
    match findFormat s datetimeFormatsC with
    | some fmt =>
      match pyStrptime s fmt with
      | some d => .ok (.dt d)
      | none => .error .valueError
    | none => .error .assertionError
  else .ok (.str s)

/-- `parsing.as_numeric`: only the `int` conversion is inside a `try`. -/
def asNumericP (s : String) : Except PyErr Cell :=
  if hasIJ s then
    match pyComplexParse s with
    | some z => .ok (.complex z)
    | none => .error .valueError
  else if hasDot s then
    match pyFloatParse s with
    | some f => .ok (.float f)
    | none => .error .valueError
  else
    match pyIntParse s with
    | some n => .ok (.int n)
    | none => .ok (.str s)

/-- `parsing.as_datetime`: `strptime` wrapped in a `try`, returning the raw
string on `ValueError`. -/
def asDatetimeP (s fmt : String) : Cell :=
  match pyStrptime s fmt with
  | some d => .dt d
  | none => .str s

/-- `set(s.lower()).issubset(string.ascii_letters)`. -/
def isAsciiSub (s : String) : Bool :=
  s.data.all fun c => 'a' ≤ c.toLower && c.toLower ≤ 'z'

/-- `parsing.convert` with no `func` argument. -/
def convertP (s : String) : Except PyErr Cell :=
  if isNumericS s then asNumericP s
  else if isAsciiSub s then .ok (.str s)
  else if isTimeP s then
    match findFormat s timeFormatsP with
    | some fmt => .ok (asDatetimeP s fmt)
    | none => .error .assertionError
  else if isDateS s then
    match findFormat s dateFormats with
    | some fmt => .ok (asDatetimeP s fmt)
    | none => .error .assertionError
  else if isDatetimeP s then
    match findFormat s datetimeFormatsP with
    | some fmt => .ok (asDatetimeP s fmt)
    | none => .error .assertionError
  else .ok (.str s)

/-! ## Python comparison semantics on cells

`==`/`!=` never raise between the cell types; `< > <= >=` raise `TypeError`
across categories (and whenever a complex is involved), and follow IEEE rules
for `nan`. -/

/-- Three-way comparison of Python floats; `none` when incomparable (`nan`). -/
def pfCmp : PyFloat → PyFloat → Option Ordering
  | .nan, _ => none
  | _, .nan => none
  | .inf a, .inf b =>
    if a = b then some .eq else if a then some .lt else some .gt
  | .inf a, .finite _ => if a then some .lt else some .gt
  | .finite _, .inf b => if b then some .gt else some .lt
  | .finite p, .finite q =>
    some (if p < q then .lt else if q < p then .gt else .eq)

def pfEq (f g : PyFloat) : Bool := pfCmp f g == some Ordering.eq

/-- Numeric reading of a cell, when it is numeric. -/
def cellNum : Cell → Option PyComplex
  | .int n => some ⟨.finite n, .finite 0⟩
  | .float f => some ⟨f, .finite 0⟩
  | .complex z => some z
  | _ => none

/-- Python `==` between cell values. -/
def pyEq (a b : Cell) : Bool :=
  match cellNum a, cellNum b with
  | some x, some y => pfEq x.re y.re && pfEq x.im y.im
  | _, _ =>
    match a, b with
    | .str s, .str t => s = t
    | .dt d, .dt e => d = e
    | _, _ => false

def natCmp (m n : Nat) : Ordering := if m < n then .lt else if n < m then .gt else .eq

/-- Lexicographic comparison of strings by code point, as Python compares. -/
def strCmpL : List Char → List Char → Ordering
  | [], [] => .eq
  | [], _ :: _ => .lt
  | _ :: _, [] => .gt
  | a :: as, b :: bs =>
    if a < b then .lt else if b < a then .gt else strCmpL as bs

def dtCmp (d e : DateTime) : Ordering :=
  (natCmp d.year e.year).then <| (natCmp d.month e.month).then <|
    (natCmp d.day e.day).then <| (natCmp d.hour e.hour).then <|
      (natCmp d.minute e.minute).then <| (natCmp d.second e.second).then <|
        natCmp d.microsecond e.microsecond

/-- Python's ordering between cell values: `TypeError` across categories or on
complexes; `none` inside `ok` means incomparable without error (`nan`). -/
def pyOrdCmp (a b : Cell) : Except PyErr (Option Ordering) :=
  match a, b with
  | .complex _, _ => .error .typeError
  | _, .complex _ => .error .typeError
  | .int m, .int n => .ok (some (if m < n then .lt else if n < m then .gt else .eq))
  | .int m, .float g => .ok (pfCmp (.finite m) g)
  | .float f, .int n => .ok (pfCmp f (.finite n))
  | .float f, .float g => .ok (pfCmp f g)
  | .str s, .str t => .ok (some (strCmpL s.data t.data))
  | .dt d, .dt e => .ok (some (dtCmp d e))
  | _, _ => .error .typeError

/-- The six rich comparison operators of `Comparison.comparators`. -/
inductive CmpOp where
  | lt | gt | le | ge | eq | ne
  deriving DecidableEq, Repr

def CmpOp.isOrd : CmpOp → Bool
  | .lt | .gt | .le | .ge => true
  | .eq | .ne => false

/-- Apply a rich comparison operator the way `operator.lt` … `operator.ne` do. -/
def applyCmp (op : CmpOp) (a b : Cell) : Except PyErr Bool :=
  match op with
  | .eq => .ok (pyEq a b)
  | .ne => .ok (!pyEq a b)
  | .lt =>
    match pyOrdCmp a b with
    | .ok o => .ok (o == some Ordering.lt)
    | .error e => .error e
  | .gt =>
    match pyOrdCmp a b with
    | .ok o => .ok (o == some Ordering.gt)
    | .error e => .error e
  | .le =>
    match pyOrdCmp a b with
    | .ok o => .ok (o == some Ordering.lt || o == some Ordering.eq)
    | .error e => .error e
  | .ge =>
    match pyOrdCmp a b with
    | .ok o => .ok (o == some Ordering.gt || o == some Ordering.eq)
    | .error e => .error e

/-! ## Tabs (`tabs.py`) -/

/-- A decoded row: an insertion-ordered mapping from column names to cells. -/
abbrev Row := List (String × Cell)

/-- `str.strip()`. -/
def pyStrip (s : String) : String := ⟨stripWs s.data⟩

/-- A word character for `re`'s `\b` (`[A-Za-z0-9_]` on the inputs in play). -/
def wordChar (c : Char) : Bool := c.isAlphanum || c = '_'

def findBoundaryAux : Nat → Char → List Char → Option Nat
  | i, prev, [] => if wordChar prev then some i else none
  | i, prev, c :: rest =>
    if (wordChar prev) ≠ (wordChar c) then some i
    else findBoundaryAux (i + 1) c rest

/-- Position of the first `\b` word boundary of a string, if any. -/
def findBoundary : List Char → Option Nat
  | [] => none
  | c :: rest => if wordChar c then some 0 else findBoundaryAux 1 c rest

/-- `re.split(r'\b', comparison, maxsplit=1)` followed by the two-name
unpacking: `none` models the `ValueError` when no boundary exists. -/
def splitCompB (s : String) : Option (String × String) :=
  match findBoundary s.data with
  | some p => some (⟨s.data.take p⟩, ⟨s.data.drop p⟩)
  | none => none

/-- `Comparison.comparators` lookup. -/
def comparatorsLookup (s : String) : Option CmpOp :=
  if s = "<" then some .lt
  else if s = ">" then some .gt
  else if s = "<=" then some .le
  else if s = ">=" then some .ge
  else if s = "==" then some .eq
  else if s = "!=" then some .ne
  else none

/-- `Comparison._single`. -/
def compSingle (name comparison : String) (permissive : Bool) (row : Row) :
    Except PyErr Bool :=
  match splitCompB comparison with
  | none => .error .valueError
  | some (compStr, valStr) =>
    match comparatorsLookup (pyStrip compStr) with
    | none => .error .keyError
    | some op =>
      match convertC valStr with
      | .error e => .error e
      | .ok v =>
        match List.lookup name row with
        | none => .error .keyError
        | some c =>
          match applyCmp op c v with
          | .ok b => .ok b
          | .error .typeError => .ok permissive
          | .error e => .error e

def matchAndAt : List Char → Option (List Char)
  | w1 :: 'a' :: 'n' :: 'd' :: w2 :: _ =>
    if isWs w1 && isWs w2 then some [w1, 'a', 'n', 'd', w2] else none
  | _ => none

def matchOrAt : List Char → Option (List Char)
  | w1 :: 'o' :: 'r' :: w2 :: _ =>
    if isWs w1 && isWs w2 then some [w1, 'o', 'r', w2] else none
  | _ => none

/-- `re.search(r'\sand\s|\sor\s', s)`: the earliest match, `and` preferred at
equal positions; returns the matched text. -/
def findLogical : List Char → Option (List Char)
  | [] => none
  | c :: rest =>
    match matchAndAt (c :: rest) with
    | some m => some m
    | none =>
      match matchOrAt (c :: rest) with
      | some m => some m
      | none => findLogical rest

def seqExcept : List (Except PyErr Bool) → Except PyErr (List Bool)
  | [] => .ok []
  | .error e :: _ => .error e
  | .ok b :: rest =>
    match seqExcept rest with
    | .ok bs => .ok (b :: bs)
    | .error e => .error e

/-- `Comparison.__call__`. -/
def compCall (name comparison : String) (permissive : Bool) (row : Row) :
    Except PyErr Bool :=
  match findLogical comparison.data with
  | some logic =>
    let logicS : String := ⟨logic⟩
    let isAnd := pyStrip logicS = "and"
    let comparisons := pySplit comparison logicS
    if comparisons.length > 2 then .error .valueError
    else
      match seqExcept (comparisons.map fun cstr => compSingle name cstr permissive row) with
      | .ok [b1, b2] => .ok (if isAnd then b1 && b2 else b1 || b2)
      | .ok _ => .error .typeError
      | .error e => .error e
  | none => compSingle name comparison permissive row

/-- The `Tab` subclasses.  A regex pattern is carried as its matching function
(`re.search` is pure in the pattern and the subject); a `Calling` tab's
callable receives the row and may return a modified one — the other variants
never touch the row, which the state-passing `tabCallS` makes explicit. -/
inductive Tab where
  | equality (name : String) (matching : Cell)
  | membership (name : String) (collection : List Cell)
  | regex (name : String) (pattern : String → Bool)
  | comparison (name : String) (comparison : String) (permissive : Bool)
  | calling (name : String) (func : Row → String → (Except PyErr Bool) × Row)
  | accepting

def Tab.isCalling : Tab → Bool
  | .calling _ _ => true
  | _ => false

/-- `tab(row)` for each variant, threading the row state. -/
def tabCallS : Tab → Row → (Except PyErr Bool) × Row
  | .equality name m, row =>
    (match List.lookup name row with
     | some c => .ok (pyEq c m)
     | none => .error .keyError,
     row)
  | .membership name coll, row =>
    (match List.lookup name row with
     | some c => .ok (coll.any fun e => pyEq c e)
     | none => .error .keyError,
     row)
  | .regex name pat, row =>
    (match List.lookup name row with
     | some (.str s) => .ok (pat s)
     | some _ => .error .typeError
     | none => .error .keyError,
     row)
  | .comparison name cstr perm, row => (compCall name cstr perm row, row)
  | .calling name func, row => func row name
  | .accepting, row => (.ok true, row)

/-! ## Tabulator (`tabs.py`) -/

/-- The `Header` dataclass of `sniffing.py`. -/
structure HeaderS where
  line : Option Nat
  names : List String
  string : Option String
  deriving DecidableEq, Repr

def pyReplaceSpace (s : String) : String :=
  ⟨s.data.map fun c => if c = ' ' then '_' else c⟩

/-- `Header.__post_init__` replaces spaces in names with underscores. -/
def mkHeader (line : Option Nat) (names : List String) (string : Option String) :
    HeaderS :=
  ⟨line, names.map pyReplaceSpace, string⟩

/-- The shapes accepted by `Tabulator._assign`'s `columns` argument. -/
inductive ColumnsArg where
  | names (l : List String)
  | indices (l : List Nat)
  | pattern (matcher : String → Bool)

structure Tabulator where
  header : HeaderS
  tabs : List Tab
  columns : List String

/-- `Tabulator._assign`.  On the `re.Pattern` path the source's
`assert isinstance(value, Sequence)` fails, because `vals` — not `value` — was
reassigned; on an empty sequence `value[0]` raises `IndexError`. -/
def assign (hd : HeaderS) (value : ColumnsArg) : Except PyErr (List String) :=
  match value with
  | .pattern _ => .error .assertionError
  | .names l =>
    match l with
    | [] => .error .indexError
    | _ :: _ =>
      if l.all fun v => hd.names.contains v then .ok l else .error .indexError
  | .indices l =>
    match l with
    | [] => .error .indexError
    | _ :: _ =>
      match (l.map fun i => hd.names.get? i).allSome with
      | some vals =>
        if vals.all fun v => hd.names.contains v then .ok vals
        else .error .indexError
      | none => .error .indexError

def colsTruthy : ColumnsArg → Bool
  | .names l => !l.isEmpty
  | .indices l => !l.isEmpty
  | .pattern _ => true

/-- `Tabulator.__init__`: falsy `rows` become `[Accepting()]`, falsy `columns`
become the header names. -/
def mkTabulator (hd : HeaderS) (tabs? : Option (List Tab))
    (cols? : Option ColumnsArg) : Except PyErr Tabulator :=
  let tabs :=
    match tabs? with
    | some (t :: ts) => t :: ts
    | _ => [.accepting]
  match cols? with
  | some c =>
    if colsTruthy c then
      match assign hd c with
      | .ok vals => .ok ⟨hd, tabs, vals⟩
      | .error e => .error e
    else .ok ⟨hd, tabs, hd.names⟩
  | none => .ok ⟨hd, tabs, hd.names⟩

/-- `all(tab(row) for tab in self.rows)` with short-circuiting, threading the
row state. -/
def tabsAllS : List Tab → Row → (Except PyErr Bool) × Row
  | [], row => (.ok true, row)
  | t :: ts, row =>
    match tabCallS t row with
    | (.ok true, row') => tabsAllS ts row'
    | (.ok false, row') => (.ok false, row')
    | (.error e, row') => (.error e, row')

/-- `Tabulator.__call__`: on acceptance a new dict is built by filtering the
row's items by membership in `columns`. -/
def tabulatorCallS (tb : Tabulator) (row : Row) :
    (Except PyErr (Option Row)) × Row :=
  match tabsAllS tb.tabs row with
  | (.ok true, row') =>
    (.ok (some (row'.filter fun kv => tb.columns.contains kv.1)), row')
  | (.ok false, row') => (.ok none, row')
  | (.error e, row') => (.error e, row')

/-! ## Sniffer (`sniffing.py`)

The sample is carried as `sample.splitlines()` — the list of sampled line
strings without terminators — together with the parallel list of originating
line numbers, exactly the two views every `Sniffer` method takes of it. -/

/-- `str.rstrip(chars)`: strip trailing characters drawn from `chars`. -/
def pyRstripSet (s : String) (chars : String) : String :=
  ⟨(s.data.reverse.dropWhile fun c => chars.data.contains c).reverse⟩

/-- `astring.replace('"', '')`. -/
def stripQuotes (s : String) : String := ⟨s.data.filter fun c => c ≠ '"'⟩

/-- `Sniffer.rows`: split each sample line, after stripping a trailing
delimiter, on the delimiter, and drop double quotes from each cell. -/
def snifferRows (lines : List String) (sep : String) : List (List String) :=
  lines.map fun line => (pySplit (pyRstripSet line sep) sep).map stripQuotes

/-- `Sniffer._mislengthed`: bottom-most row whose length differs from the
last row's. -/
def mislengthedSig (rows : List (List String)) (nums : List Nat) : Option Nat :=
  let lastRow := rows.getLast?.getD []
  ((nums.zip rows).reverse.find? fun p => p.2.length != lastRow.length).map
    fun p => p.1

/-- `Sniffer._nonnumeric`: bottom-most row with no stringed numerics, no empty
cells, and the last row's length. -/
def nonnumericSig (rows : List (List String)) (nums : List Nat) : Option Nat :=
  let lastRow := rows.getLast?.getD []
  ((nums.zip rows).reverse.find? fun p =>
    (!(p.2.any fun s => isNumericS s)) && (p.2.all fun el => !el.isEmpty) &&
      (p.2.length == lastRow.length)).map fun p => p.1

def disjointedAux (seen : List (List String)) : List (Nat × List String) → Option Nat
  | [] => none
  | (num, row) :: rest =>
    if seen.all fun others => row.all fun x => !others.contains x then some num
    else disjointedAux (seen ++ [row]) rest

/-- `Sniffer._disjointed`: the `next` on the reversed iterator raises
`StopIteration` when the zipped sample is empty. -/
def disjointedSig (rows : List (List String)) (nums : List Nat) :
    Except PyErr (Option Nat) :=
  match (nums.zip rows).reverse with
  | [] => .error .stopIteration
  | (_, last) :: rest => .ok (disjointedAux [last] rest)

/-- The `MetaData` dataclass. -/
structure MetaDataS where
  lines : Nat × Option Nat
  string : Option String
  deriving DecidableEq, Repr

/-- `list.index`: position of the first occurrence, `None` modelling the
`ValueError` when absent. -/
def pyIndex : List Nat → Nat → Option Nat
  | [], _ => none
  | y :: rest, x => if y = x then some 0 else (pyIndex rest x).map fun i => i + 1

/-- `max(nums) if nums else None` over `[x for x in ... if x]`: Python's
truthiness drops both `None` and `0`. -/
def maxOfTruthy (l : List (Option Nat)) : Option Nat :=
  ((l.filterMap id).filter fun x => x != 0).max?

/-- The no-header branch of `Sniffer.metadata`.  The source writes
`if all(...): ... if any(...): ... else: ...` — the second `if` is not an
`elif`, so when the last row is all numeric the `any` branch runs too and
overwrites `line_num`; the translation keeps the dead first assignment
visible as `_lineNumAllCase`. -/
def metadataHeuristic (rows : List (List String)) (lines : List String)
    (nums : List Nat) : Except PyErr MetaDataS :=
  let mislengthed := mislengthedSig rows nums
  match disjointedSig rows nums with
  | .error e => .error e
  | .ok disjointed =>
    let nonnumeric := nonnumericSig rows nums
    let lastRow := rows.getLast?.getD []
    let _lineNumAllCase : Option Nat :=
      if lastRow.all (fun s => isNumericS s) then
        maxOfTruthy [mislengthed, nonnumeric]
      else none
    let lineNum : Option Nat :=
      if lastRow.any (fun s => isNumericS s) then
        maxOfTruthy [mislengthed, disjointed, nonnumeric]
      else
        maxOfTruthy [mislengthed, disjointed]
    match lineNum with
    | none => .ok ⟨(0, none), none⟩
    | some ln =>
      match pyIndex nums ln with
      | none => .error .valueError
      | some idx =>
        match lines.get? (idx + 1) with
        | some s => .ok ⟨(0, some ln), some s⟩
        | none => .error .indexError

/-- `Sniffer.metadata`: the header branch is taken only when `header` and
`header.line` are both truthy (so not for a header at line 0). -/
def snifferMetadata (lines : List String) (nums : List Nat) (sep : String)
    (header : Option HeaderS) : Except PyErr MetaDataS :=
  let rows := snifferRows lines sep
  match header with
  | some hd =>
    match hd.line with
    | some h =>
      if h ≠ 0 then
        match pyIndex nums h with
        | some idx =>
          .ok ⟨(0, some h), some (String.intercalate "\n" (lines.take idx))⟩
        | none => .error .valueError
      else metadataHeuristic rows lines nums
    | none => metadataHeuristic rows lines nums
  | none => metadataHeuristic rows lines nums

/-- The sample parameters owned by a `Sniffer`.  Python's ints are modelled on
`Nat` (the clamps only ever see non-negative values; `line_count ≥ 1` for any
non-empty file). -/
structure SnifferParams where
  lineCount : Nat
  start : Nat
  amount : Nat
  deriving DecidableEq, Repr

/-- `Sniffer.__init__`: `start` clamped to `line_count - 1`, `amount` clamped
to `line_count - start`. -/
def snifferInitParams (lineCount start amount : Nat) : SnifferParams :=
  let s := min start (lineCount - 1)
  ⟨lineCount, s, min (lineCount - s) amount⟩

/-- The `start` property setter. -/
def setStart (p : SnifferParams) (value : Nat) : SnifferParams :=
  { p with start := min (p.lineCount - 1) value }

/-- The `amount` property setter — note the clamp is `min(line_count, value)`,
not `min(line_count - start, value)` as in `__init__`. -/
def setAmount (p : SnifferParams) (value : Nat) : SnifferParams :=
  { p with amount := min p.lineCount value }

/-! ## Reader chunk emission (`reading.py` / `reader.py` `read`)

Each loop iteration appends at most one accepted row to the FIFO; whenever the
FIFO reaches `chunksize` exactly `chunksize` rows are popped and yielded, and
after the loop the tail is always yielded, even when empty. -/

/-- The FIFO/yield discipline of `Reader.read`, folded over the accepted rows
in file order. -/
def readChunks (k : Nat) : List Row → List Row → List (List Row)
  | fifo, [] => [fifo]
  | fifo, r :: rest =>
    let f := fifo ++ [r]
    if k ≤ f.length then (f.take k) :: readChunks k (f.drop k) rest
    else readChunks k f rest

/-! # Theorems -/

/-! ## Chunk-shape lemmas for `readChunks` (C3) -/

theorem readChunks_ne_nil (k : Nat) (rows fifo : List Row) :
    readChunks k fifo rows ≠ [] := by
  induction rows generalizing fifo with
  | nil => simp [readChunks]
  | cons r rest ih =>
    simp only [readChunks]
    split
    · simp
    · exact ih _

theorem readChunks_shape_aux (k : Nat) (hk : 0 < k) :
    ∀ rows fifo : List Row, fifo.length < k →
      (∀ c ∈ (readChunks k fifo rows).dropLast, c.length = k) ∧
      (∀ c, (readChunks k fifo rows).getLast? = some c → c.length ≤ k) := by
  intro rows
  induction rows with
  | nil =>
    intro fifo hf
    refine ⟨fun c hc => by simp [readChunks] at hc, fun c hc => ?_⟩
    simp only [readChunks, List.getLast?_singleton, Option.some.injEq] at hc
    subst hc
    exact Nat.le_of_lt hf
  | cons r rest ih =>
    intro fifo hf
    simp only [readChunks]
    by_cases hlen : k ≤ (fifo ++ [r]).length
    · rw [if_pos hlen]
      have hflen : (fifo ++ [r]).length = k := by
        simp only [List.length_append, List.length_singleton] at hlen ⊢
        omega
      have hdrop : ((fifo ++ [r]).drop k).length < k := by
        simp [List.length_drop, hflen, hk]
      obtain ⟨ih1, ih2⟩ := ih ((fifo ++ [r]).drop k) hdrop
      have hne := readChunks_ne_nil k rest ((fifo ++ [r]).drop k)
      rcases hl : readChunks k ((fifo ++ [r]).drop k) rest with _ | ⟨x, xs⟩
      · exact absurd hl hne
      · rw [hl] at ih1 ih2
        constructor
        · intro c hc
          rw [List.dropLast_cons₂] at hc
          rcases List.mem_cons.mp hc with rfl | hc
          · simp [List.length_take, hflen]
          · exact ih1 c hc
        · intro c hc
          rw [List.getLast?_cons_cons] at hc
          exact ih2 c hc
    · rw [if_neg hlen]
      exact ih (fifo ++ [r]) (Nat.lt_of_not_le hlen)

/-- C3: for every `chunksize k > 0`, every chunk emitted by the read loop
except possibly the last has exactly `k` rows, the last chunk has at most `k`
rows, and with no accepted rows exactly one chunk — the empty one — is
yielded. -/
theorem c3_chunk_shape (k : Nat) (rows : List Row) (hk : 0 < k) :
    (∀ c ∈ (readChunks k [] rows).dropLast, c.length = k) ∧
    (∀ c, (readChunks k [] rows).getLast? = some c → c.length ≤ k) ∧
    readChunks k ([] : List Row) ([] : List Row) = [[]] := by
  obtain ⟨h1, h2⟩ := readChunks_shape_aux k hk rows [] (by simpa using hk)
  exact ⟨h1, h2, rfl⟩

/-- Witness for C3 at `k = 2` and five accepted rows. -/
theorem c3_chunk_shape_witness :
    (∀ c ∈ (readChunks 2 [] [[], [], [], [], []]).dropLast, c.length = 2) ∧
    (∀ c, (readChunks 2 [] [[], [], [], [], []]).getLast? = some c →
      c.length ≤ 2) ∧
    readChunks 2 ([] : List Row) ([] : List Row) = [[]] :=
  c3_chunk_shape 2 [[], [], [], [], []] (by decide)

/-! ## Frame lemmas for the Tabulator (C10) -/

theorem tabCallS_snd (t : Tab) (row : Row) (h : t.isCalling = false) :
    (tabCallS t row).2 = row := by
  cases t <;> first | rfl | simp [Tab.isCalling] at h

theorem tabsAllS_snd (ts : List Tab) (row : Row)
    (h : ∀ t ∈ ts, t.isCalling = false) : (tabsAllS ts row).2 = row := by
  induction ts generalizing row with
  | nil => rfl
  | cons t ts ih =>
    have ht := tabCallS_snd t row (h t (List.mem_cons_self t ts))
    have hts : ∀ t' ∈ ts, t'.isCalling = false := fun t' ht' =>
      h t' (List.mem_cons_of_mem t ht')
    simp only [tabsAllS]
    rcases hEq : tabCallS t row with ⟨res, row2⟩
    have hrow2 : row2 = row := by rw [← ht, hEq]
    subst hrow2
    rcases res with e | b
    · rfl
    · cases b
      · rfl
      · exact ih _ hts

/-- C10: a `Tabulator` whose tabs are all of the built-in non-`Calling` kinds
(Equality, Membership, Regex, Comparison, Accepting) leaves the input row
unchanged, and on acceptance returns the dictionary freshly built by filtering
the row's items by the column projection (never the input object itself). -/
theorem c10_tabulator_frame (tb : Tabulator) (row : Row)
    (h : ∀ t ∈ tb.tabs, t.isCalling = false) :
    (tabulatorCallS tb row).2 = row ∧
    ∀ out, (tabulatorCallS tb row).1 = .ok (some out) →
      out = row.filter fun kv => tb.columns.contains kv.1 := by
  have hsnd := tabsAllS_snd tb.tabs row h
  unfold tabulatorCallS
  rcases hEq : tabsAllS tb.tabs row with ⟨res, row2⟩
  have hrow2 : row2 = row := by rw [← hsnd, hEq]
  subst hrow2
  rcases res with e | b
  · exact ⟨rfl, fun out hout => by simp at hout⟩
  · cases b
    · exact ⟨rfl, fun out hout => by simp at hout⟩
    · refine ⟨rfl, fun out hout => ?_⟩
      simpa using hout.symm

/-- Witness for C10: an `Equality` tab and a two-column row. -/
theorem c10_tabulator_frame_witness :
    (tabulatorCallS ⟨mkHeader none ["a", "b"] none, [.equality "a" (.int 1)], ["a"]⟩
        [("a", Cell.int 1), ("b", Cell.int 2)]).2 =
      [("a", Cell.int 1), ("b", Cell.int 2)] ∧
    ∀ out,
      (tabulatorCallS ⟨mkHeader none ["a", "b"] none, [.equality "a" (.int 1)], ["a"]⟩
          [("a", Cell.int 1), ("b", Cell.int 2)]).1 = .ok (some out) →
      out = [("a", Cell.int 1), ("b", Cell.int 2)].filter
        fun kv => ["a"].contains kv.1 :=
  c10_tabulator_frame
    ⟨mkHeader none ["a", "b"] none, [.equality "a" (.int 1)], ["a"]⟩
    [("a", Cell.int 1), ("b", Cell.int 2)]
    (by
      intro t ht
      rw [List.mem_singleton] at ht
      subst ht
      rfl)

/-! ## Projection lemmas for the Tabulator (C1) -/

theorem mapFst_filter (row : Row) (p : String → Bool) :
    (row.filter fun kv => p kv.1).map Prod.fst = (row.map Prod.fst).filter p := by
  induction row with
  | nil => rfl
  | cons kv rest ih => cases hp : p kv.1 <;> simp [List.filter_cons, hp, ih]

theorem lookup_filter_of_pred (row : Row) (p : String → Bool) (k : String)
    (hk : p k = true) :
    (row.filter fun kv => p kv.1).lookup k = row.lookup k := by
  induction row with
  | nil => rfl
  | cons kv rest ih =>
    obtain ⟨k1, v1⟩ := kv
    cases hp : p k1
    · have hne : (k == k1) = false := by
        cases hbe : k == k1
        · rfl
        · rw [eq_of_beq hbe] at hk
          rw [hp] at hk
          cases hk
      simp [List.filter_cons, hp, List.lookup, hne, ih]
    · simp only [List.filter_cons, hp, if_true, List.lookup]
      cases hbe : k == k1 <;> simp [hbe, ih]

/-- C1 (amended): when a row satisfies all the (built-in) tabs and every
projected column occurs among the row's keys, the Tabulator emits exactly the
projected columns — but ordered by the input row's key order, with each value
the corresponding input cell. -/
theorem c1_projection_amended (tb : Tabulator) (row : Row)
    (hcall : ∀ t ∈ tb.tabs, t.isCalling = false)
    (hacc : (tabsAllS tb.tabs row).1 = .ok true)
    (hsub : ∀ c ∈ tb.columns, c ∈ row.map Prod.fst) :
    ∃ out, (tabulatorCallS tb row).1 = .ok (some out) ∧
      out.map Prod.fst = (row.map Prod.fst).filter (fun k => tb.columns.contains k) ∧
      (out.map Prod.fst).toFinset = tb.columns.toFinset ∧
      (∀ k, tb.columns.contains k = true → out.lookup k = row.lookup k) ∧
      ∀ kv ∈ out, kv ∈ row := by
  have hsnd := tabsAllS_snd tb.tabs row hcall
  have hpair : tabsAllS tb.tabs row = (.ok true, row) := by
    rcases hEq : tabsAllS tb.tabs row with ⟨res, row2⟩
    rw [hEq] at hacc hsnd
    simp only at hacc hsnd
    rw [hacc, hsnd]
  refine ⟨row.filter fun kv => tb.columns.contains kv.1, ?_, ?_, ?_, ?_, ?_⟩
  · unfold tabulatorCallS
    rw [hpair]
  · exact mapFst_filter row _
  · rw [mapFst_filter row _]
    ext x
    simp only [List.mem_toFinset, List.mem_filter, List.elem_iff]
    exact ⟨fun ⟨_, hx⟩ => hx, fun hx => ⟨hsub x hx, hx⟩⟩
  · intro k hk
    exact lookup_filter_of_pred row _ k hk
  · intro kv hkv
    exact List.mem_of_mem_filter hkv

/-- Witness for C1 (amended): projection `["b", "a"]`, accepting tab. -/
theorem c1_projection_amended_witness :
    ∃ out,
      (tabulatorCallS ⟨mkHeader none ["a", "b"] none, [.accepting], ["b", "a"]⟩
          [("a", Cell.int 1), ("b", Cell.int 2)]).1 = .ok (some out) ∧
      out.map Prod.fst =
        ([("a", Cell.int 1), ("b", Cell.int 2)].map Prod.fst).filter
          (fun k => ["b", "a"].contains k) ∧
      (out.map Prod.fst).toFinset = (["b", "a"] : List String).toFinset ∧
      (∀ k, (["b", "a"] : List String).contains k = true →
        out.lookup k = [("a", Cell.int 1), ("b", Cell.int 2)].lookup k) ∧
      ∀ kv ∈ out, kv ∈ [("a", Cell.int 1), ("b", Cell.int 2)] :=
  c1_projection_amended
    ⟨mkHeader none ["a", "b"] none, [.accepting], ["b", "a"]⟩
    [("a", Cell.int 1), ("b", Cell.int 2)]
    (by
      intro t ht
      rw [List.mem_singleton] at ht
      subst ht
      rfl)
    rfl
    (by decide)

/-! ## Metadata header-branch lemmas (C2) -/

theorem pyIndex_of_mem : ∀ (l : List Nat) (x : Nat), x ∈ l →
    ∃ i, pyIndex l x = some i := by
  intro l
  induction l with
  | nil => intro x hx; exact absurd hx (List.not_mem_nil x)
  | cons y rest ih =>
    intro x hx
    by_cases hyx : y = x
    · exact ⟨0, by simp [pyIndex, hyx]⟩
    · have hx' : x ∈ rest := by
        rcases List.mem_cons.mp hx with rfl | hx'
        · exact absurd rfl hyx
        · exact hx'
      obtain ⟨i, hi⟩ := ih x hx'
      exact ⟨i + 1, by simp [pyIndex, hyx, hi]⟩

/-- C2 (amended): for a header found at line `h ≥ 1` appearing in the sampled
line numbers, `metadata(header)` returns bounds `(0, h)` — the stored end is
the header's own line number (exclusive of the header line) — and the metadata
string is the join of the sample lines strictly above the header line. -/
theorem c2_metadata_amended (lines : List String) (nums : List Nat) (sep : String)
    (names : List String) (hstr : Option String) (h : Nat) (hpos : h ≠ 0)
    (hmem : h ∈ nums) :
    ∃ idx, pyIndex nums h = some idx ∧
      snifferMetadata lines nums sep (some ⟨some h, names, hstr⟩) =
        .ok ⟨(0, some h), some (String.intercalate "\n" (lines.take idx))⟩ := by
  obtain ⟨idx, hidx⟩ := pyIndex_of_mem nums h hmem
  refine ⟨idx, hidx, ?_⟩
  simp only [snifferMetadata]
  rw [if_pos hpos, hidx]

/-- Witness for C2 (amended) on a four-line sample with the header at line 2. -/
theorem c2_metadata_amended_witness :
    snifferMetadata ["exp;3", "name;Paul", "group;count", "1;2"] [0, 1, 2, 3] ";"
        (some ⟨some 2, ["group", "count"], none⟩) =
      .ok ⟨(0, some 2), some (String.intercalate "\n"
        (["exp;3", "name;Paul", "group;count", "1;2"].take 2))⟩ := by
  obtain ⟨idx, hidx, hres⟩ :=
    c2_metadata_amended ["exp;3", "name;Paul", "group;count", "1;2"] [0, 1, 2, 3]
      ";" ["group", "count"] none 2 (by decide) (by decide)
  have hidx2 : idx = 2 := by
    have : pyIndex [0, 1, 2, 3] 2 = some 2 := by decide
    rw [this] at hidx
    exact (Option.some.inj hidx).symm
  rw [hidx2] at hres
  exact hres

/-- C1 (counterexample): a `Tabulator` built with the projection `["b", "a"]`
over header `["a", "b"]`, applied to a row that satisfies its (accepting)
tabs, emits the keys in the *row's* order `["a", "b"]`, not the projection's
configured order `["b", "a"]` — `Tabulator.__call__` filters `row.items()` by
membership. -/
theorem c1_projection_order_counterexample :
    mkTabulator (mkHeader none ["a", "b"] none) none (some (.names ["b", "a"])) =
      .ok ⟨mkHeader none ["a", "b"] none, [.accepting], ["b", "a"]⟩ ∧
    (tabulatorCallS ⟨mkHeader none ["a", "b"] none, [.accepting], ["b", "a"]⟩
        [("a", .int 1), ("b", .int 2)]).1 =
      .ok (some [("a", Cell.int 1), ("b", Cell.int 2)]) ∧
    [("a", Cell.int 1), ("b", Cell.int 2)].map Prod.fst ≠ ["b", "a"] := by
  refine ⟨rfl, rfl, by decide⟩

/-- C2 (counterexample): with a header detected at file line `h = 2`,
`Sniffer.metadata` returns bounds `(0, 2)` — the header's own line number —
not the claimed `(0, h - 1) = (0, 1)`; the metadata string does consist of the
sample lines above the header. -/
theorem c2_metadata_bounds_counterexample :
    snifferMetadata ["exp;3", "name;Paul", "group;count", "1;2"] [0, 1, 2, 3] ";"
        (some (mkHeader (some 2) ["group", "count"] (some "group;count"))) =
      .ok ⟨(0, some 2), some "exp;3\nname;Paul"⟩ ∧
    (some 2 : Option Nat) ≠ some (2 - 1) := by
  refine ⟨rfl, by decide⟩

/-- C4 (code bug): `"1e5"` is classified numeric (it parses as a complex),
carries a scientific exponent but neither an imaginary marker nor a dot, so
the claim (and the spec) demand a float; instead `celltyping.convert` raises
`ValueError` from `int('1e5')` — contradicting its own docstring "Convert
raises no Errors" — and `parsing.as_numeric` falls back to returning the
string unchanged. -/
theorem c4_numeric_exponent_bug :
    isNumericS "1e5" = true ∧ hasIJ "1e5" = false ∧ hasDot "1e5" = false ∧
    convertC "1e5" = .error .valueError ∧
    asNumericP "1e5" = .ok (.str "1e5") := by
  refine ⟨rfl, rfl, rfl, rfl, rfl⟩

/-- C5 (code bug): `convert` can raise on its auto-classification path,
contradicting the claim and its own docstring: `celltyping.convert('1e5')`
raises `ValueError` from `int`, and `parsing.convert('(1.5)')` raises
`ValueError` from `float` inside `as_numeric` (Python's `complex` accepts the
parentheses, `float` does not). -/
theorem c5_convert_raises_bug :
    convertC "1e5" = .error .valueError ∧
    convertP "(1.5)" = .error .valueError := by
  refine ⟨rfl, rfl⟩

/-! ## Field-preservation lemmas for `strptime` (C6) -/

/-- A format (as characters) free of the date directives `%Y %y %m %b %B %d`. -/
def dateFreeF : List Char → Bool
  | [] => true
  | c :: rest =>
    if c = '%' then
      match rest with
      | c2 :: rest2 =>
        !(c2 = 'Y' || c2 = 'y' || c2 = 'm' || c2 = 'b' || c2 = 'B' || c2 = 'd') &&
          dateFreeF rest2
      | [] => true
    else dateFreeF rest

/-- A format free of the time directives `%H %I %M %S %f %p`. -/
def timeFreeF : List Char → Bool
  | [] => true
  | c :: rest =>
    if c = '%' then
      match rest with
      | c2 :: rest2 =>
        !(c2 = 'H' || c2 = 'I' || c2 = 'M' || c2 = 'S' || c2 = 'f' || c2 = 'p') &&
          timeFreeF rest2
      | [] => true
    else timeFreeF rest

theorem parseDirective_dateFree (c : Char) (inp : List Char) (tm tm' : TM)
    (inp' : List Char)
    (hc : (c = 'Y' || c = 'y' || c = 'm' || c = 'b' || c = 'B' || c = 'd') = false)
    (h : parseDirective c inp tm = some (tm', inp')) :
    tm'.y = tm.y ∧ tm'.mon = tm.mon ∧ tm'.d = tm.d := by
  unfold parseDirective at h
  split at h <;>
    first
    | (exact absurd hc (by decide))
    | (split at h <;>
        first
        | (injection h with hpair
           injection hpair with hrec hrest
           try rw [← hrec]
           try subst hrec
           exact ⟨rfl, rfl, rfl⟩)
        | (cases h))
    | (cases h)

theorem parseDirective_timeFree (c : Char) (inp : List Char) (tm tm' : TM)
    (inp' : List Char)
    (hc : (c = 'H' || c = 'I' || c = 'M' || c = 'S' || c = 'f' || c = 'p') = false)
    (h : parseDirective c inp tm = some (tm', inp')) :
    tm'.h24 = tm.h24 ∧ tm'.h12 = tm.h12 ∧ tm'.pm = tm.pm ∧ tm'.minu = tm.minu ∧
      tm'.sec = tm.sec ∧ tm'.us = tm.us := by
  unfold parseDirective at h
  split at h <;>
    first
    | (exact absurd hc (by decide))
    | (split at h <;>
        first
        | (injection h with hpair
           injection hpair with hrec hrest
           try rw [← hrec]
           try subst hrec
           exact ⟨rfl, rfl, rfl, rfl, rfl, rfl⟩)
        | (cases h))
    | (cases h)

theorem runFmt_cons (c : Char) (rest inp : List Char) (tm : TM) :
    runFmt (c :: rest) inp tm =
      if c = '%' then
        match rest with
        | c2 :: rest2 =>
          (match parseDirective c2 inp tm with
           | some (tm', inp') => runFmt rest2 inp' tm'
           | none => none)
        | [] =>
          (match inp with
           | c3 :: inp3 => if c3 = '%' then some (tm, inp3) else none
           | [] => none)
      else if c = ' ' then
        (if (inp.takeWhile isWs).length = 0 then none
         else runFmt rest (inp.drop (inp.takeWhile isWs).length) tm)
      else
        match inp with
        | c3 :: inp3 => if c3 = c then runFmt rest inp3 tm else none
        | [] => none := by
  cases rest <;> cases inp <;> rfl

theorem dateFreeF_cons (c : Char) (rest : List Char) :
    dateFreeF (c :: rest) =
      if c = '%' then
        match rest with
        | c2 :: rest2 =>
          !(c2 = 'Y' || c2 = 'y' || c2 = 'm' || c2 = 'b' || c2 = 'B' || c2 = 'd') &&
            dateFreeF rest2
        | [] => true
      else dateFreeF rest := by
  cases rest <;> rfl

theorem timeFreeF_cons (c : Char) (rest : List Char) :
    timeFreeF (c :: rest) =
      if c = '%' then
        match rest with
        | c2 :: rest2 =>
          !(c2 = 'H' || c2 = 'I' || c2 = 'M' || c2 = 'S' || c2 = 'f' || c2 = 'p') &&
            timeFreeF rest2
        | [] => true
      else timeFreeF rest := by
  cases rest <;> rfl

theorem runFmt_dateFree (fmt inp : List Char) (tm : TM) :
    ∀ tm' rest, dateFreeF fmt = true → runFmt fmt inp tm = some (tm', rest) →
      tm'.y = tm.y ∧ tm'.mon = tm.mon ∧ tm'.d = tm.d := by
  induction fmt, inp, tm using runFmt.induct with
  | case1 inp tm =>
    intro tm' rest _ h
    simp only [runFmt, Option.some.injEq, Prod.mk.injEq] at h
    rw [← h.1]
    exact ⟨rfl, rfl, rfl⟩
  | case2 inp tm c3 inp3 tm2 inp' hdir ih =>
    intro tm' rest' hdf h
    have hred : dateFreeF ('%' :: c3 :: inp3) =
        (!(c3 = 'Y' || c3 = 'y' || c3 = 'm' || c3 = 'b' || c3 = 'B' || c3 = 'd') &&
          dateFreeF inp3) := by
      rw [dateFreeF_cons]
      rfl
    rw [hred, Bool.and_eq_true, Bool.not_eq_true'] at hdf
    rw [show runFmt ('%' :: c3 :: inp3) inp tm = runFmt inp3 inp' tm2 from by
      rw [runFmt_cons]
      simp [hdir]] at h
    obtain ⟨h1, h2, h3⟩ := ih tm' rest' hdf.2 h
    obtain ⟨g1, g2, g3⟩ := parseDirective_dateFree c3 inp tm tm2 inp' hdf.1 hdir
    exact ⟨h1.trans g1, h2.trans g2, h3.trans g3⟩
  | case3 inp tm c3 inp3 hdir =>
    intro tm' rest' _ h
    rw [show runFmt ('%' :: c3 :: inp3) inp tm = none from by
      rw [runFmt_cons]
      simp [hdir]] at h
    cases h
  | case4 tm inp3 =>
    intro tm' rest' _ h
    rw [show runFmt ['%'] ('%' :: inp3) tm = some (tm, inp3) from by
      rw [runFmt_cons]
      simp] at h
    injection h with hpair
    injection hpair with hrec hrest
    rw [← hrec]
    exact ⟨rfl, rfl, rfl⟩
  | case5 tm c3 inp3 hne =>
    intro tm' rest' _ h
    rw [show runFmt ['%'] (c3 :: inp3) tm = none from by
      rw [runFmt_cons]
      simp [hne]] at h
    cases h
  | case6 tm =>
    intro tm' rest' _ h
    rw [show runFmt ['%'] [] tm = none from by
      rw [runFmt_cons]
      rfl] at h
    cases h
  | case7 rest inp tm hws hns =>
    intro tm' rest' _ h
    rw [show runFmt (' ' :: rest) inp tm = none from by
      rw [runFmt_cons]
      simp [hws]] at h
    cases h
  | case8 rest inp tm hws hns ih =>
    intro tm' rest' hdf h
    rw [show runFmt (' ' :: rest) inp tm =
        runFmt rest (inp.drop (inp.takeWhile isWs).length) tm from by
      rw [runFmt_cons]
      simp [hws]] at h
    exact ih tm' rest' (by
      rw [dateFreeF_cons] at hdf
      simpa using hdf) h
  | case9 rest tm c3 inp3 hnp hns ih =>
    intro tm' rest' hdf h
    rw [show runFmt (c3 :: rest) (c3 :: inp3) tm = runFmt rest inp3 tm from by
      rw [runFmt_cons]
      simp [hnp, hns]] at h
    exact ih tm' rest' (by
      rw [dateFreeF_cons] at hdf
      simpa [hnp] using hdf) h
  | case10 c rest tm hnp hns c3 inp3 hne =>
    intro tm' rest' _ h
    rw [show runFmt (c :: rest) (c3 :: inp3) tm = none from by
      rw [runFmt_cons]
      simp [hnp, hns, hne]] at h
    cases h
  | case11 c rest tm hnp hns =>
    intro tm' rest' _ h
    rw [show runFmt (c :: rest) [] tm = none from by
      rw [runFmt_cons]
      simp [hnp, hns]] at h
    cases h

theorem runFmt_timeFree (fmt inp : List Char) (tm : TM) :
    ∀ tm' rest, timeFreeF fmt = true → runFmt fmt inp tm = some (tm', rest) →
      tm'.h24 = tm.h24 ∧ tm'.h12 = tm.h12 ∧ tm'.pm = tm.pm ∧
        tm'.minu = tm.minu ∧ tm'.sec = tm.sec ∧ tm'.us = tm.us := by
  induction fmt, inp, tm using runFmt.induct with
  | case1 inp tm =>
    intro tm' rest _ h
    simp only [runFmt, Option.some.injEq, Prod.mk.injEq] at h
    rw [← h.1]
    exact ⟨rfl, rfl, rfl, rfl, rfl, rfl⟩
  | case2 inp tm c3 inp3 tm2 inp' hdir ih =>
    intro tm' rest' hdf h
    have hred : timeFreeF ('%' :: c3 :: inp3) =
        (!(c3 = 'H' || c3 = 'I' || c3 = 'M' || c3 = 'S' || c3 = 'f' || c3 = 'p') &&
          timeFreeF inp3) := by
      rw [timeFreeF_cons]
      rfl
    rw [hred, Bool.and_eq_true, Bool.not_eq_true'] at hdf
    rw [show runFmt ('%' :: c3 :: inp3) inp tm = runFmt inp3 inp' tm2 from by
      rw [runFmt_cons]
      simp [hdir]] at h
    obtain ⟨h1, h2, h3, h4, h5, h6⟩ := ih tm' rest' hdf.2 h
    obtain ⟨g1, g2, g3, g4, g5, g6⟩ :=
      parseDirective_timeFree c3 inp tm tm2 inp' hdf.1 hdir
    exact ⟨h1.trans g1, h2.trans g2, h3.trans g3, h4.trans g4, h5.trans g5,
      h6.trans g6⟩
  | case3 inp tm c3 inp3 hdir =>
    intro tm' rest' _ h
    rw [show runFmt ('%' :: c3 :: inp3) inp tm = none from by
      rw [runFmt_cons]
      simp [hdir]] at h
    cases h
  | case4 tm inp3 =>
    intro tm' rest' _ h
    rw [show runFmt ['%'] ('%' :: inp3) tm = some (tm, inp3) from by
      rw [runFmt_cons]
      simp] at h
    injection h with hpair
    injection hpair with hrec hrest
    rw [← hrec]
    exact ⟨rfl, rfl, rfl, rfl, rfl, rfl⟩
  | case5 tm c3 inp3 hne =>
    intro tm' rest' _ h
    rw [show runFmt ['%'] (c3 :: inp3) tm = none from by
      rw [runFmt_cons]
      simp [hne]] at h
    cases h
  | case6 tm =>
    intro tm' rest' _ h
    rw [show runFmt ['%'] [] tm = none from by
      rw [runFmt_cons]
      rfl] at h
    cases h
  | case7 rest inp tm hws hns =>
    intro tm' rest' _ h
    rw [show runFmt (' ' :: rest) inp tm = none from by
      rw [runFmt_cons]
      simp [hws]] at h
    cases h
  | case8 rest inp tm hws hns ih =>
    intro tm' rest' hdf h
    rw [show runFmt (' ' :: rest) inp tm =
        runFmt rest (inp.drop (inp.takeWhile isWs).length) tm from by
      rw [runFmt_cons]
      simp [hws]] at h
    exact ih tm' rest' (by
      rw [timeFreeF_cons] at hdf
      simpa using hdf) h
  | case9 rest tm c3 inp3 hnp hns ih =>
    intro tm' rest' hdf h
    rw [show runFmt (c3 :: rest) (c3 :: inp3) tm = runFmt rest inp3 tm from by
      rw [runFmt_cons]
      simp [hnp, hns]] at h
    exact ih tm' rest' (by
      rw [timeFreeF_cons] at hdf
      simpa [hnp] using hdf) h
  | case10 c rest tm hnp hns c3 inp3 hne =>
    intro tm' rest' _ h
    rw [show runFmt (c :: rest) (c3 :: inp3) tm = none from by
      rw [runFmt_cons]
      simp [hnp, hns, hne]] at h
    cases h
  | case11 c rest tm hnp hns =>
    intro tm' rest' _ h
    rw [show runFmt (c :: rest) [] tm = none from by
      rw [runFmt_cons]
      simp [hnp, hns]] at h
    cases h

theorem findFormat_spec (s : String) : ∀ (fmts : List String) (fmt : String),
    findFormat s fmts = some fmt → fmt ∈ fmts ∧ (pyStrptime s fmt).isSome = true := by
  intro fmts
  induction fmts with
  | nil => intro fmt h; cases h
  | cons f rest ih =>
    intro fmt h
    simp only [findFormat] at h
    by_cases hs : (pyStrptime s f).isSome = true
    · rw [if_pos hs] at h
      injection h with h
      subst h
      exact ⟨List.mem_cons_self f rest, hs⟩
    · rw [if_neg hs] at h
      obtain ⟨h1, h2⟩ := ih fmt h
      exact ⟨List.mem_cons_of_mem f h1, h2⟩

/-- Every entry of `celltyping.time_formats()` is free of date directives. -/
theorem timeFormatsC_dateFree :
    timeFormatsC.all (fun f => dateFreeF f.data) = true := by decide

/-- Every entry of `date_formats()` is free of time directives. -/
theorem dateFormats_timeFree :
    dateFormats.all (fun f => timeFreeF f.data) = true := by decide

theorem pyStrptime_dateFields (s fmt : String) (d : DateTime)
    (hdf : dateFreeF fmt.data = true) (h : pyStrptime s fmt = some d) :
    d.year = 1900 ∧ d.month = 1 ∧ d.day = 1 := by
  unfold pyStrptime at h
  rcases hr : runFmt fmt.data s.data {} with _ | ⟨tm, rest⟩
  · rw [hr] at h
    simp at h
  · rw [hr] at h
    rcases rest with _ | ⟨r0, rrest⟩
    · obtain ⟨hy, hm, hd2⟩ := runFmt_dateFree fmt.data s.data {} tm [] hdf hr
      have h' : tmFinalize tm = some d := h
      unfold tmFinalize at h'
      dsimp only at h'
      split at h'
      · injection h' with h'
        subst h'
        refine ⟨?_, ?_, ?_⟩ <;> simp [hy, hm, hd2]
      · cases h'
    · simp at h

theorem pyStrptime_timeFields (s fmt : String) (d : DateTime)
    (htf : timeFreeF fmt.data = true) (h : pyStrptime s fmt = some d) :
    d.hour = 0 ∧ d.minute = 0 ∧ d.second = 0 ∧ d.microsecond = 0 := by
  unfold pyStrptime at h
  rcases hr : runFmt fmt.data s.data {} with _ | ⟨tm, rest⟩
  · rw [hr] at h
    simp at h
  · rw [hr] at h
    rcases rest with _ | ⟨r0, rrest⟩
    · obtain ⟨h1, h2, h3, h4, h5, h6⟩ :=
        runFmt_timeFree fmt.data s.data {} tm [] htf hr
      have h' : tmFinalize tm = some d := h
      unfold tmFinalize at h'
      dsimp only at h'
      split at h'
      · injection h' with h'
        subst h'
        refine ⟨?_, ?_, ?_, ?_⟩ <;> simp [tmHour, h1, h2, h3, h4, h5, h6]
      · cases h'
    · simp at h

/-- C6 (amended): a bare-time string converts to a datetime whose sentinel
date is January 1 of year **1900** (`strptime`'s missing-field default, as
`parsing.as_datetime`'s docstring states); a bare-date string converts to a
datetime with zeroed hour, minute, second and microsecond. -/
theorem c6_datetime_fields_amended :
    (∀ s : String, isNumericS s = false → isDateS s = false → isTimeC s = true →
      ∃ d, convertC s = .ok (.dt d) ∧ d.year = 1900 ∧ d.month = 1 ∧ d.day = 1) ∧
    (∀ s : String, isNumericS s = false → isDateS s = true →
      ∃ d, convertC s = .ok (.dt d) ∧ d.hour = 0 ∧ d.minute = 0 ∧ d.second = 0 ∧
        d.microsecond = 0) := by
  constructor
  · intro s hnum hdate htime
    obtain ⟨fmt, hfmt⟩ := Option.isSome_iff_exists.mp (htime : (findFormat s timeFormatsC).isSome = true)
    obtain ⟨hmem, hsome⟩ := findFormat_spec s timeFormatsC fmt hfmt
    obtain ⟨d, hd⟩ := Option.isSome_iff_exists.mp hsome
    have hdf : dateFreeF fmt.data = true :=
      List.all_eq_true.mp timeFormatsC_dateFree fmt hmem
    obtain ⟨hy, hm, hda⟩ := pyStrptime_dateFields s fmt d hdf hd
    refine ⟨d, ?_, hy, hm, hda⟩
    simp only [convertC, hnum, hdate, htime, hfmt, hd, Bool.false_eq_true,
      if_false, if_true]
  · intro s hnum hdate
    obtain ⟨fmt, hfmt⟩ := Option.isSome_iff_exists.mp (hdate : (findFormat s dateFormats).isSome = true)
    obtain ⟨hmem, hsome⟩ := findFormat_spec s dateFormats fmt hfmt
    obtain ⟨d, hd⟩ := Option.isSome_iff_exists.mp hsome
    have htf : timeFreeF fmt.data = true :=
      List.all_eq_true.mp dateFormats_timeFree fmt hmem
    obtain ⟨hh, hmin, hsec, hus⟩ := pyStrptime_timeFields s fmt d htf hd
    refine ⟨d, ?_, hh, hmin, hsec, hus⟩
    simp only [convertC, hnum, hdate, hfmt, hd, Bool.false_eq_true, if_false,
      if_true]

/-- Witness for C6 (amended): the bare time `"11:03:29"` and the bare date
`"11/09/1942"`. -/
theorem c6_datetime_fields_amended_witness :
    (∃ d, convertC "11:03:29" = .ok (.dt d) ∧ d.year = 1900 ∧ d.month = 1 ∧
      d.day = 1) ∧
    (∃ d, convertC "11/09/1942" = .ok (.dt d) ∧ d.hour = 0 ∧ d.minute = 0 ∧
      d.second = 0 ∧ d.microsecond = 0) :=
  ⟨c6_datetime_fields_amended.1 "11:03:29" (by rfl) (by rfl) (by rfl),
   c6_datetime_fields_amended.2 "11/09/1942" (by rfl) (by rfl)⟩

/-- C6 (counterexample): the bare time `"11:03:29"` converts to a datetime
whose sentinel date is January 1 of year **1900** (`strptime`'s default), not
January 1 of year 1 as claimed. -/
theorem c6_sentinel_year_counterexample :
    convertC "11:03:29" = .ok (.dt ⟨1900, 1, 1, 11, 3, 29, 0⟩) ∧
    (1900 : Nat) ≠ 1 := by
  refine ⟨rfl, by decide⟩

/-- C7 (code bug): sample `["x;y", "5;foo", "1;2"]` has an all-numeric last
row, `mislengthed = None`, `nonnumeric = 0` and `disjointed = 1`.  The claim
(and the method's own docstring, note 1) say the metadata end is drawn from
the mislengthed/nonnumeric signals only — here `None` after Python's
truthiness filter — but because the source's `if any(...)` is not an `elif`,
the all-numeric result is overwritten and the disjointed signal decides:
the code returns end `1`. -/
theorem c7_metadata_disjoint_bug :
    ((snifferRows ["x;y", "5;foo", "1;2"] ";").getLast?.getD []).all
        (fun s => isNumericS s) = true ∧
    mislengthedSig (snifferRows ["x;y", "5;foo", "1;2"] ";") [0, 1, 2] = none ∧
    nonnumericSig (snifferRows ["x;y", "5;foo", "1;2"] ";") [0, 1, 2] = some 0 ∧
    disjointedSig (snifferRows ["x;y", "5;foo", "1;2"] ";") [0, 1, 2] =
      .ok (some 1) ∧
    maxOfTruthy [mislengthedSig (snifferRows ["x;y", "5;foo", "1;2"] ";") [0, 1, 2],
      nonnumericSig (snifferRows ["x;y", "5;foo", "1;2"] ";") [0, 1, 2]] = none ∧
    snifferMetadata ["x;y", "5;foo", "1;2"] [0, 1, 2] ";" none =
      .ok ⟨(0, some 1), some "1;2"⟩ := by
  refine ⟨by rfl, by rfl, by rfl, by rfl, by rfl, by rfl⟩

/-! ## Category lemmas for rich comparisons (C8) -/

/-- The type category of a cell: numeric / string / datetime. -/
def cellCat : Cell → Nat
  | .int _ => 0
  | .float _ => 0
  | .complex _ => 0
  | .str _ => 1
  | .dt _ => 2

theorem pyEq_cross_false (c v : Cell) (h : cellCat c ≠ cellCat v) :
    pyEq c v = false := by
  cases c <;> cases v <;> first | rfl | (exact absurd rfl h)

theorem ordCmp_cross (c v : Cell) (h : cellCat c ≠ cellCat v) :
    pyOrdCmp c v = .error .typeError := by
  cases c <;> cases v <;> first | rfl | (exact absurd rfl h)

theorem applyCmp_ord_cross (op : CmpOp) (hop : op.isOrd = true) (c v : Cell)
    (h : cellCat c ≠ cellCat v) : applyCmp op c v = .error .typeError := by
  have hcmp := ordCmp_cross c v h
  cases op with
  | lt => simp [applyCmp, hcmp]
  | gt => simp [applyCmp, hcmp]
  | le => simp [applyCmp, hcmp]
  | ge => simp [applyCmp, hcmp]
  | eq => exact absurd hop (by decide)
  | ne => exact absurd hop (by decide)

/-- C8 (amended): in a Comparison tab over a cell whose type category differs
from the parsed operand's, the four order operators `< > <= >=` raise
`TypeError` inside the guarded call and the tab returns the permissive flag;
`==` and `!=` never raise between mismatched types, so `==` yields `False`
(row rejected regardless of the flag) and `!=` yields `True`. -/
theorem c8_comparison_amended (name cstr : String) (permissive : Bool) (row : Row)
    (a b : String) (op : CmpOp) (v c : Cell)
    (hlog : findLogical cstr.data = none)
    (hsplit : splitCompB cstr = some (a, b))
    (hop : comparatorsLookup (pyStrip a) = some op)
    (hv : convertC b = .ok v)
    (hc : List.lookup name row = some c)
    (hcat : cellCat c ≠ cellCat v) :
    (op.isOrd = true → compCall name cstr permissive row = .ok permissive) ∧
    (op = .eq → compCall name cstr permissive row = .ok false) ∧
    (op = .ne → compCall name cstr permissive row = .ok true) := by
  have hcc : compCall name cstr permissive row = compSingle name cstr permissive row := by
    simp [compCall, hlog]
  refine ⟨?_, ?_, ?_⟩
  · intro hord
    rw [hcc]
    simp only [compSingle, hsplit, hop, hv, hc]
    rw [applyCmp_ord_cross op hord c v hcat]
  · intro heq
    subst heq
    rw [hcc]
    simp only [compSingle, hsplit, hop, hv, hc]
    have ha : applyCmp .eq c v = .ok (pyEq c v) := rfl
    rw [ha, pyEq_cross_false c v hcat]
  · intro hne
    subst hne
    rw [hcc]
    simp only [compSingle, hsplit, hop, hv, hc]
    have ha : applyCmp .ne c v = .ok (!pyEq c v) := rfl
    rw [ha, pyEq_cross_false c v hcat]
    rfl

/-- Witness for C8 (amended): `Comparison('x', '< 3', permissive=False)` on a
string cell is rejected — the permissive flag decides. -/
theorem c8_comparison_amended_witness :
    compCall "x" "< 3" false [("x", Cell.str "hello")] = .ok false :=
  (c8_comparison_amended "x" "< 3" false [("x", Cell.str "hello")] "< " "3"
    .lt (.int 3) (.str "hello") (by rfl) (by rfl) (by rfl) (by rfl) (by rfl)
    (by decide)).1 rfl

/-- C8 (counterexample): evaluating the tab `Comparison('x', '== 3')` with the
default `permissive=True` on a row whose cell `'hello'` is type-incompatible
with the operand `3` returns `False` — Python's `==` never raises between
mismatched types, so the `TypeError` handler that would return the permissive
flag is not reached, and the row is rejected rather than kept. -/
theorem c8_equality_operator_counterexample :
    compCall "x" "== 3" true [("x", .str "hello")] = .ok false ∧
    false ≠ true := by
  refine ⟨rfl, by decide⟩

/-- C9 (code bug): the `amount` setter stores `min(line_count, value)` —
assigning `amount = 8` on a sniffer with `line_count = 10, start = 5` stores
`8`, not `min(8, line_count - start) = 5` as the claim, the spec, and
`Sniffer.__init__`'s own clamp (`min(self.line_count - self._start, amount)`)
require; `_resample` then pads the sample's bookkeeping past end of file. -/
theorem c9_amount_clamp_bug :
    (setAmount ⟨10, 5, 5⟩ 8).amount = 8 ∧
    min 8 (10 - 5) = 5 ∧
    (snifferInitParams 10 5 8).amount = 5 ∧
    (8 : Nat) ≠ 5 := by
  decide

end Tabbed
